import Mathlib

/-!
Verification of the maskfs repository: a glob-masked HTTP file server.

Go strings are modelled as lists of bytes (`List Nat`, each element a byte
value < 256; all concrete strings in this development are ASCII). The
definitions below embed, in order:
  * the pieces of the Go standard library the server calls
    (`strings.Split`, `filepath.Clean`, `io/fs.ValidPath`, `net/url`
    percent-escaping, `path/filepath.Match`),
  * the go-git `plumbing/format/gitignore` pattern matcher that
    `pkg/mask.GlobMask` is built on,
  * the repository's own code: `pkg/mask` (GlobMask), `pkg/index`
    (GetEntry / GetEntries / WriteHTML) and `pkg/server`
    (Server.ServeHTTP and the mux wiring in Run).
-/

/-- A Go string: a sequence of bytes. -/
abbrev GoStr := List Nat

/-- Bytes of an ASCII Lean string literal (for ASCII, char codes are the
UTF-8 bytes, matching Go's string representation). -/
def s2b (s : String) : GoStr := s.data.map Char.toNat

/-- Go `strings.Split(s, sep)` for a single-byte separator `b`.
`splitOnByte b []` is `[[]]`, matching `strings.Split("", sep) = [""]`. -/
def splitOnByte (b : Nat) : GoStr → List GoStr
  | [] => [[]]
  | c :: r =>
    let rest := splitOnByte b r
    if c = b then [] :: rest
    else (c :: rest.headD []) :: rest.tail

/-- Split a path on `/` (byte 47), as in `strings.Split(entry.FSPath, "/")`. -/
def splitSlash (s : GoStr) : List GoStr := splitOnByte 47 s

/-- Join byte strings with a single-byte separator (inverse of `splitOnByte`). -/
def joinB (b : Nat) : List GoStr → GoStr
  | [] => []
  | [e] => e
  | e :: rest => e ++ b :: joinB b rest

/-- Go `strings.Contains(s, c)` for a single-byte needle. -/
def containsByte (b : Nat) (s : GoStr) : Bool := s.any (fun c => c = b)

/-- Go `strings.Contains(s, "**")`: two adjacent `*` bytes somewhere in `s`. -/
def hasDoubleStar : GoStr → Bool
  | c :: d :: r => (c = 42 && d = 42) || hasDoubleStar (d :: r)
  | _ => false

/-- Go `strings.HasPrefix(s, pre)`. -/
def hasPrefB : GoStr → GoStr → Bool
  | [], _ => true
  | _ :: _, [] => false
  | p :: ps, c :: cs => p = c && hasPrefB ps cs

/-- Strip a leading `pre` from `s` when present (Go `strings.TrimPrefix`
restricted to the case the prefix is present). -/
def stripPrefB : GoStr → GoStr → Option GoStr
  | [], s => some s
  | _ :: _, [] => none
  | p :: ps, c :: cs => if p = c then stripPrefB ps cs else none

/-- Go `strings.HasSuffix(s, suf)`. -/
def hasSuffB (suf s : GoStr) : Bool := hasPrefB suf.reverse s.reverse

/-- Go `strings.TrimRight(s, " ")`: drop trailing space bytes. -/
def trimRightSpaces (s : GoStr) : GoStr := (s.reverse.dropWhile (fun c => c = 32)).reverse

/-- ASCII whitespace byte, the set `strings.TrimSpace` trims for ASCII input
(all rule text considered in this development is ASCII). -/
def isSpaceByte (c : Nat) : Bool := c = 9 || c = 10 || c = 11 || c = 12 || c = 13 || c = 32

/-- Go `strings.TrimSpace` on ASCII input. -/
def trimSpaceB (s : GoStr) : GoStr :=
  ((s.dropWhile isSpaceByte).reverse.dropWhile isSpaceByte).reverse

/-- Byte-level UTF-8 scanner: `k` is the number of continuation bytes still
expected, with the next one constrained to `[lo, hi]` (the first continuation
byte of a multi-byte sequence has a tighter range for lead bytes
`E0`/`ED`/`F0`/`F4`, excluding overlong forms, surrogates and values past
U+10FFFF; subsequent continuation bytes use `[128, 191]`). -/
def utf8Scan : Nat → Nat → Nat → List Nat → Bool
  | 0, _, _, [] => true
  | 0, _, _, c :: rest =>
    if c < 128 then utf8Scan 0 0 0 rest
    else if c < 194 then false
    else if c ≤ 223 then utf8Scan 1 128 191 rest
    else if c = 224 then utf8Scan 2 160 191 rest
    else if c = 237 then utf8Scan 2 128 159 rest
    else if c ≤ 239 then utf8Scan 2 128 191 rest
    else if c = 240 then utf8Scan 3 144 191 rest
    else if c ≤ 243 then utf8Scan 3 128 191 rest
    else if c = 244 then utf8Scan 3 128 143 rest
    else false
  | _ + 1, _, _, [] => false
  | k + 1, lo, hi, c :: rest => (lo ≤ c && c ≤ hi) && utf8Scan k 128 191 rest

/-- Go `unicode/utf8.ValidString` at the byte level: standard UTF-8
well-formedness (shortest-form encodings, no surrogates, max U+10FFFF). -/
def utf8Valid (p : List Nat) : Bool := utf8Scan 0 0 0 p

/-- Go `io/fs.ValidPath`: UTF-8, and either exactly `"."` or a nonempty
`/`-separated sequence of elements none of which is `""`, `"."` or `".."`.
`os.DirFS` rejects any name failing this check before touching the OS. -/
def validPath (p : GoStr) : Bool :=
  utf8Valid p &&
    (p = [46] ||
      (splitSlash p).all (fun e => decide (e ≠ []) && decide (e ≠ [46]) && decide (e ≠ [46, 46])))

/-- Element processing of `filepath.Clean`'s lexical algorithm: skip empty and
`.` elements; on `..` pop a poppable trailing element, or (unrooted) keep a
leading `..`, or (rooted) drop it. The accumulator invariant mirrors the
`dotdot` index of the Go implementation: leading `..` elements, which occur
only in the unrooted case, are never popped. -/
def cleanFold (rooted : Bool) (acc : List GoStr) : List GoStr → List GoStr
  | [] => acc
  | e :: rest =>
    if e = [] ∨ e = [46] then cleanFold rooted acc rest
    else if e = [46, 46] then
      if acc ≠ [] ∧ acc.getLast? ≠ some [46, 46] then cleanFold rooted acc.dropLast rest
      else if rooted then cleanFold rooted acc rest
      else cleanFold rooted (acc ++ [[46, 46]]) rest
    else cleanFold rooted (acc ++ [e]) rest

/-- Go `path/filepath.Clean` on Unix (same as `path.Clean`): the lexical
path-cleaning algorithm. `Clean("")` is `"."`; a rooted path stays rooted and
never keeps `..` elements; an unrooted path keeps only leading `..` elements. -/
def filepathClean (p : GoStr) : GoStr :=
  if p = [] then [46]
  else
    let rooted := p.head? = some 47
    let elems := cleanFold rooted [] (splitSlash p)
    if rooted then 47 :: joinB 47 elems
    else if elems = [] then [46]
    else joinB 47 elems

/-- Go `path.Join(a, b)` (identical to `filepath.Join` on Unix): concatenate
the nonempty arguments with `/` and `Clean` the result; all-empty gives `""`. -/
def pathJoin2 (a b : GoStr) : GoStr :=
  if a = [] ∧ b = [] then []
  else if a = [] then filepathClean b
  else if b = [] then filepathClean a
  else filepathClean (a ++ 47 :: b)

/-- ASCII letter or digit. -/
def isAlnumB (c : Nat) : Bool :=
  (97 ≤ c && c ≤ 122) || (65 ≤ c && c ≤ 90) || (48 ≤ c && c ≤ 57)

/-- RFC 3986 unreserved marks `- _ . ~`. -/
def isMarkB (c : Nat) : Bool := c = 45 || c = 95 || c = 46 || c = 126

/-- RFC 3986 reserved bytes handled specially by Go's `url.shouldEscape`:
`$ & + , / : ; = ? @`. -/
def isReservedB (c : Nat) : Bool :=
  c = 36 || c = 38 || c = 43 || c = 44 || c = 47 || c = 58 || c = 59 || c = 61 || c = 63 || c = 64

/-- Go `net/url.shouldEscape(c, encodePathSegment)`: escape everything except
alphanumerics, marks, and the reserved bytes other than `/ ; , ?`. -/
def shouldEscapeSeg (c : Nat) : Bool :=
  if isAlnumB c || isMarkB c then false
  else if isReservedB c then c = 47 || c = 59 || c = 44 || c = 63
  else true

/-- Go `net/url.shouldEscape(c, encodePath)`: as above but of the reserved
bytes only `?` is escaped. -/
def shouldEscapePath (c : Nat) : Bool :=
  if isAlnumB c || isMarkB c then false
  else if isReservedB c then c = 63
  else true

/-- Upper-case hex digit of a value `< 16` (Go's `upperhex` table). -/
def hexDig (d : Nat) : Nat := if d < 10 then 48 + d else 55 + d

/-- Percent-escape every byte selected by `f` as `%XX` (Go `url.escape`,
without the query-mode space/plus special case, which path modes never use). -/
def escapeWith (f : Nat → Bool) : GoStr → GoStr
  | [] => []
  | c :: r =>
    if f c then 37 :: hexDig (c / 16) :: hexDig (c % 16) :: escapeWith f r
    else c :: escapeWith f r

/-- Go `url.PathEscape`. -/
def pathEscape (s : GoStr) : GoStr := escapeWith shouldEscapeSeg s

/-- Hex digit value accepted by Go `url.ishex`/`unhex`. -/
def unhexB (c : Nat) : Option Nat :=
  if 48 ≤ c ∧ c ≤ 57 then some (c - 48)
  else if 65 ≤ c ∧ c ≤ 70 then some (c - 55)
  else if 97 ≤ c ∧ c ≤ 102 then some (c - 87)
  else none

/-- Decoding of the two bytes following a `%` (shared helper of `unescapeB`);
`rec` is the continuation on the remaining input. A `%` not followed by two
hex digits is a malformed escape. -/
def unescapePct (rec : GoStr → Option GoStr) : GoStr → Option GoStr
  | a :: b :: r2 =>
    match unhexB a, unhexB b with
    | some x, some y => (rec r2).map (fun t => (x * 16 + y) :: t)
    | _, _ => none
  | _ => none

/-- Fueled body of Go `url.unescape` in a path mode: decode every `%XX`,
failing on a malformed escape. Each step consumes at least one input byte, so
fuel `length + 1` always suffices and the fuel-exhaustion arm is unreachable.
Path modes (`encodePath`, `encodePathSegment`) impose no other constraint, so
one function serves both `url.PathUnescape` and the decoding half of
`URL.setPath`. -/
def unescapeF : Nat → GoStr → Option GoStr
  | 0, _ => none
  | _ + 1, [] => some []
  | fuel + 1, c :: r =>
    if c = 37 then unescapePct (unescapeF fuel) r
    else (unescapeF fuel r).map (fun t => c :: t)

/-- Go `url.unescape` in a path mode. -/
def unescapeB (s : GoStr) : Option GoStr := unescapeF (s.length + 1) s

/-- Go `url.PathUnescape`, as called by `Server.ServeHTTP` on the request path. -/
def pathUnescape (s : GoStr) : Option GoStr := unescapeB s

/-- One byte of Go `url.validEncoded(s, encodePath)`: sub-delims, brackets and
`%` are accepted outright, anything else must not need escaping. -/
def validEncByte (c : Nat) : Bool :=
  (c = 33 || c = 36 || c = 38 || c = 39 || c = 40 || c = 41 || c = 42 || c = 43 ||
   c = 44 || c = 59 || c = 61 || c = 58 || c = 64) || c = 91 || c = 93 || c = 37 ||
    !shouldEscapePath c

/-- Go `url.validEncoded(s, encodePath)`. -/
def validEncodedPath (s : GoStr) : Bool := s.all validEncByte

/-- Model of `url.JoinPath("/files", e)` as used by `index.GetEntry`:
`path.Join` the escaped strings, preserve a trailing slash of the last
element, then run the `URL.setPath` / `URL.EscapedPath` pair that `String()`
renders (the base `"/files"` has no scheme or host, so `String()` returns
exactly the escaped path; `url.JoinPath` can only fail if the base fails to
parse, which `"/files"` never does; a `setPath` decoding failure is ignored by
`URL.JoinPath`, leaving the base path in place). -/
def joinPathFiles (e : GoStr) : GoStr :=
  let p := pathJoin2 (s2b "/files") e
  let p := if hasSuffB [47] e ∧ ¬hasSuffB [47] p then p ++ [47] else p
  match unescapeB p with
  | none => s2b "/files"
  | some dec =>
    if escapeWith shouldEscapePath dec = p then p
    else if validEncodedPath p then p
    else escapeWith shouldEscapePath dec

/-- Go `unicode/utf8.DecodeRuneInString` at the byte level: returns
(rune, size); `(RuneError, 0)` on empty input, `(RuneError, 1)` on an invalid
or truncated sequence. -/
def decodeRune : List Nat → Nat × Nat
  | [] => (65533, 0)
  | c :: rest =>
    if c < 128 then (c, 1)
    else if c < 194 then (65533, 1)
    else if c ≤ 223 then
      match rest with
      | c1 :: _ =>
        if 128 ≤ c1 ∧ c1 ≤ 191 then ((c - 192) * 64 + (c1 - 128), 2) else (65533, 1)
      | [] => (65533, 1)
    else if c ≤ 239 then
      match rest with
      | c1 :: c2 :: _ =>
        if (if c = 224 then 160 ≤ c1 ∧ c1 ≤ 191
            else if c = 237 then 128 ≤ c1 ∧ c1 ≤ 159
            else 128 ≤ c1 ∧ c1 ≤ 191) ∧ 128 ≤ c2 ∧ c2 ≤ 191 then
          ((c - 224) * 4096 + (c1 - 128) * 64 + (c2 - 128), 3)
        else (65533, 1)
      | _ => (65533, 1)
    else if c ≤ 244 then
      match rest with
      | c1 :: c2 :: c3 :: _ =>
        if (if c = 240 then 144 ≤ c1 ∧ c1 ≤ 191
            else if c = 244 then 128 ≤ c1 ∧ c1 ≤ 143
            else 128 ≤ c1 ∧ c1 ≤ 191) ∧ 128 ≤ c2 ∧ c2 ≤ 191 ∧ 128 ≤ c3 ∧ c3 ≤ 191 then
          ((c - 240) * 262144 + (c1 - 128) * 4096 + (c2 - 128) * 64 + (c3 - 128), 4)
        else (65533, 1)
      | _ => (65533, 1)
    else (65533, 1)

/-- Leading-star scan of `filepath.scanChunk`: consume leading `*`s, report
whether any was present. -/
def dropStars : GoStr → Bool × GoStr
  | [] => (false, [])
  | c :: r => if c = 42 then (true, (dropStars r).2) else (false, c :: r)

/-- Body scan of `filepath.scanChunk`: take bytes up to the next top-level
(unbracketed) `*`, skipping the byte after a backslash, tracking `[`/`]`. -/
def chunkSpan (inr : Bool) : GoStr → GoStr × GoStr
  | [] => ([], [])
  | c :: rest =>
    if c = 92 then
      match rest with
      | [] => ([92], [])
      | d :: rest2 =>
        let s := chunkSpan inr rest2
        (92 :: d :: s.1, s.2)
    else if c = 91 then
      let s := chunkSpan true rest
      (91 :: s.1, s.2)
    else if c = 93 then
      let s := chunkSpan false rest
      (93 :: s.1, s.2)
    else if c = 42 ∧ ¬inr then ([], c :: rest)
    else
      let s := chunkSpan inr rest
      (c :: s.1, s.2)

/-- Go `filepath.scanChunk`: split a pattern into (star, chunk, rest). -/
def scanChunk (p : GoStr) : Bool × GoStr × GoStr :=
  let d := dropStars p
  let s := chunkSpan false d.2
  (d.1, s.1, s.2)

/-- Go `filepath.getEsc`: read one (possibly backslash-escaped) class rune.
Fails on `-`, `]`, an empty or exhausted chunk, or an invalid rune. -/
def getEsc (chunk : GoStr) : Except Unit (Nat × GoStr)  :=
  match chunk with
  | [] => Except.error ()
  | c :: _ =>
    if c = 45 ∨ c = 93 then Except.error ()
    else
      let chunk2 := if c = 92 then chunk.tail else chunk
      match chunk2 with
      | [] => Except.error ()
      | _ =>
        let d := decodeRune chunk2
        if d.1 = 65533 ∧ d.2 = 1 then Except.error ()
        else
          let nchunk := chunk2.drop d.2
          if nchunk = [] then Except.error () else Except.ok (d.1, nchunk)

/-- Range-parsing loop of the `[` case of `filepath.matchChunk` (fueled; each
iteration consumes at least one byte of the chunk, so fuel `chunk.length + 1`
always suffices and the fuel-exhaustion branch is unreachable). Returns
(whether any range matched the rune `r`, remaining chunk). -/
def parseRangesF : Nat → Nat → GoStr → Nat → Bool → Except Unit (Bool × GoStr)
  | 0, _, _, _, _ => Except.error ()
  | fuel + 1, r, chunk, nrange, acc =>
    if chunk.head? = some 93 ∧ 0 < nrange then Except.ok (acc, chunk.tail)
    else
      match getEsc chunk with
      | Except.error _ => Except.error ()
      | Except.ok (lo, ch2) =>
        match ch2 with
        | 45 :: ch3 =>
          match getEsc ch3 with
          | Except.error _ => Except.error ()
          | Except.ok (hi, ch4) =>
            parseRangesF fuel r ch4 (nrange + 1) (acc || (lo ≤ r && r ≤ hi))
        | _ => parseRangesF fuel r ch2 (nrange + 1) (acc || (lo ≤ r && r ≤ lo))

/-- Loop body of Go `filepath.matchChunk` (fueled on the chunk; each iteration
consumes at least one chunk byte, so `chunk.length + 1` fuel suffices).
Returns `ok (some rest)` on a match, `ok none` on a clean mismatch, `error`
on a malformed pattern. -/
def matchChunkF : Nat → GoStr → GoStr → Bool → Except Unit (Option GoStr)
  | 0, _, _, _ => Except.error ()
  | fuel + 1, chunk, s, failed0 =>
    match chunk with
    | [] => if failed0 then Except.ok none else Except.ok (some s)
    | c :: ch' =>
      let failed := if ¬failed0 ∧ s = [] then true else failed0
      if c = 91 then
        let rs := if ¬failed then
            let d := decodeRune s
            (d.1, s.drop d.2)
          else (0, s)
        let neg := match ch' with
          | 94 :: t => (true, t)
          | _ => (false, ch')
        match parseRangesF (neg.2.length + 1) rs.1 neg.2 0 false with
        | Except.error _ => Except.error ()
        | Except.ok (m, ch3) =>
          matchChunkF fuel ch3 rs.2 (if m = neg.1 then true else failed)
      else if c = 63 then
        if ¬failed then
          matchChunkF fuel ch' (s.drop (decodeRune s).2) (if s.head? = some 47 then true else failed)
        else matchChunkF fuel ch' s failed
      else if c = 92 then
        match ch' with
        | [] => Except.error ()
        | d :: ch2 =>
          if ¬failed then
            matchChunkF fuel ch2 (s.drop 1) (if s.head? = some d then failed else true)
          else matchChunkF fuel ch2 s failed
      else
        if ¬failed then
          matchChunkF fuel ch' (s.drop 1) (if s.head? = some c then failed else true)
        else matchChunkF fuel ch' s failed

/-- Go `filepath.matchChunk(chunk, s)` (starts with `failed = false`). -/
def matchChunk (chunk s : GoStr) : Except Unit (Option GoStr) :=
  matchChunkF (chunk.length + 1) chunk s false

/-- Syntactic validation of the remaining pattern, the final loop of
`filepath.Match` (fueled; each round consumes at least one pattern byte). -/
def validateRestF : Nat → GoStr → Bool
  | 0, _ => false
  | fuel + 1, p =>
    match p with
    | [] => true
    | _ :: _ =>
      let s := scanChunk p
      match matchChunk s.2.1 [] with
      | Except.error _ => false
      | Except.ok _ => validateRestF fuel s.2.2

/-- Inner star-retry loop of `filepath.Match`: try the chunk at each later
byte position of `name`, stopping at a separator. A match whose pattern rest
is empty but leaves input is skipped (trailing-chunk anchoring). -/
def starLoop (chunk rest : GoStr) : GoStr → Except Unit (Option GoStr)
  | [] => Except.ok none
  | c :: name' =>
    if c = 47 then Except.ok none
    else
      match matchChunk chunk name' with
      | Except.error _ => Except.error ()
      | Except.ok (some t) =>
        if rest = [] ∧ t ≠ [] then starLoop chunk rest name'
        else Except.ok (some t)
      | Except.ok none => starLoop chunk rest name'

/-- Main loop of Go `path/filepath.Match` (fueled on the pattern; every
iteration strictly consumes pattern bytes, so `pattern.length + 1` fuel
suffices). `ok b` is Go's `(b, nil)`; `error` is `ErrBadPattern`. -/
def matchLoopF : Nat → GoStr → GoStr → Except Unit Bool
  | 0, _, _ => Except.error ()
  | fuel + 1, pat, name =>
    match pat with
    | [] => Except.ok (name = [])
    | _ :: _ =>
      let sc := scanChunk pat
      let star := sc.1
      let chunk := sc.2.1
      let rest := sc.2.2
      if star ∧ chunk = [] then Except.ok (¬containsByte 47 name)
      else
        match matchChunk chunk name with
        | Except.error _ => Except.error ()
        | Except.ok r =>
          match (match r with
                 | some t => if t = [] ∨ rest ≠ [] then some t else none
                 | none => none) with
          | some t => matchLoopF fuel rest t
          | none =>
            if star then
              match starLoop chunk rest name with
              | Except.error _ => Except.error ()
              | Except.ok (some t) => matchLoopF fuel rest t
              | Except.ok none =>
                if validateRestF (rest.length + 1) rest then Except.ok false else Except.error ()
            else
              if validateRestF (rest.length + 1) rest then Except.ok false else Except.error ()

/-- Go `path/filepath.Match(pattern, name)`. -/
def goFilepathMatch (pat name : GoStr) : Except Unit Bool :=
  matchLoopF (pat.length + 1) pat name

/-- Outcome of matching one gitignore pattern (go-git `gitignore.MatchResult`):
`excl` is a pattern without `!` (an ignore rule in git, an include rule under
maskfs's inverted reading), `incl` a `!`-negated one. -/
inductive MatchResult where
  | noMatch
  | excl
  | incl
deriving DecidableEq

/-- A parsed gitignore pattern (go-git `gitignore.pattern` with an empty
domain, as built by `ParsePattern(line, nil)`). -/
structure GitPattern where
  inclusion : Bool
  dirOnly : Bool
  isGlob : Bool
  pattern : List GoStr
deriving DecidableEq

/-- Go-git `gitignore.ParsePattern(p, nil)`: strip a leading `!`, trim
trailing spaces unless the pattern ends in an escaped space, record and strip
a trailing `/`, mark patterns containing `/` as globs, split on `/`. -/
def parsePattern (p0 : GoStr) : GitPattern :=
  let inc := p0.head? = some 33
  let p1 := if inc then p0.tail else p0
  let p2 := if ¬hasSuffB (s2b "\\ ") p1 then trimRightSpaces p1 else p1
  let dir := hasSuffB [47] p2
  let p3 := if dir then p2.dropLast else p2
  { inclusion := inc
    dirOnly := dir
    isGlob := containsByte 47 p3
    pattern := splitSlash p3 }

/-- Go-git `pattern.simpleNameMatch`: match the single pattern segment against
any one path segment; a final-segment match of a dir-only pattern against a
non-directory fails. -/
def simpleNameMatch (pat : GoStr) (dirOnly isDir : Bool) : List GoStr → Bool
  | [] => false
  | name :: rest =>
    match goFilepathMatch pat name with
    | Except.error _ => false
    | Except.ok false => simpleNameMatch pat dirOnly isDir rest
    | Except.ok true => if dirOnly ∧ ¬isDir ∧ rest = [] then false else true

/-- The `canTraverse` inner loop of go-git `pattern.globMatch`: pop path
segments until the current pattern segment matches one; exhausting the path
resets `matched` to false. `error` is the Go `return false` on a bad pattern. -/
def traverseLoop (pat : GoStr) (matched0 : Bool) : List GoStr → Except Unit (Bool × List GoStr)
  | [] => Except.ok (matched0, [])
  | e :: rest =>
    match goFilepathMatch pat e with
    | Except.error _ => Except.error ()
    | Except.ok true => Except.ok (true, rest)
    | Except.ok false =>
      if rest = [] then Except.ok (false, [])
      else traverseLoop pat matched0 rest

/-- Pattern-segment loop of go-git `pattern.globMatch`. `error` models the
early `return false` paths; `ok (matched, path)` is the state at loop exit. -/
def globLoop : List GoStr → List GoStr → Bool → Bool → Except Unit (Bool × List GoStr)
  | [], path, matched, _ => Except.ok (matched, path)
  | pat :: pats, path, matched, canTraverse =>
    if pat = [] then globLoop pats path matched false
    else if pat = [42, 42] then
      if pats = [] then Except.ok (matched, path)
      else globLoop pats path matched true
    else if hasDoubleStar pat then Except.error ()
    else
      match path with
      | [] => Except.error ()
      | e :: path' =>
        if canTraverse then
          match traverseLoop pat matched (e :: path') with
          | Except.error _ => Except.error ()
          | Except.ok (m, rem) => globLoop pats rem m false
        else
          match goFilepathMatch pat e with
          | Except.ok true => globLoop pats path' true false
          | _ => Except.error ()

/-- Go-git `pattern.globMatch`: run the segment loop, then fail a dir-only
pattern that consumed the whole path of a non-directory. -/
def globMatch (patSegs : List GoStr) (dirOnly : Bool) (path : List GoStr) (isDir : Bool) : Bool :=
  match globLoop patSegs path false false with
  | Except.error _ => false
  | Except.ok (matched, rem) =>
    if matched ∧ dirOnly ∧ ¬isDir ∧ rem = [] then false else matched

/-- Go-git `pattern.Match` for a domain-free pattern: empty paths never match
(`len(path) <= len(domain)` with a nil domain); then glob or simple-name
matching; a match yields `incl` on a `!` pattern and `excl` otherwise. -/
def patternMatch (gp : GitPattern) (path : List GoStr) (isDir : Bool) : MatchResult :=
  match path with
  | [] => MatchResult.noMatch
  | _ :: _ =>
    let ok := if gp.isGlob then globMatch gp.pattern gp.dirOnly path isDir
              else simpleNameMatch (gp.pattern.headD []) gp.dirOnly isDir path
    if ¬ok then MatchResult.noMatch
    else if gp.inclusion then MatchResult.incl
    else MatchResult.excl

/-- Backward scan of go-git `matcher.Match`: starting from the last pattern,
the first one that matches decides; `excl` (no `!`) gives `true`. -/
def matchScan : List GitPattern → List GoStr → Bool → Bool
  | [], _, _ => false
  | gp :: rest, path, isDir =>
    match patternMatch gp path isDir with
    | MatchResult.noMatch => matchScan rest path isDir
    | MatchResult.excl => true
    | MatchResult.incl => false

/-- Go-git `matcher.Match(path, isDir)`: patterns are consulted in reverse
declaration order (last match wins). -/
def matcherMatch (pats : List GitPattern) (path : List GoStr) (isDir : Bool) : Bool :=
  matchScan pats.reverse path isDir

/-- The repository's `mask.NewGlobMask(rules)` (never errors): split the rule
text on newlines, trim each line, drop blank lines and `#` comments, parse the
rest in order. -/
def newGlobMask (rules : GoStr) : List GitPattern :=
  (splitOnByte 10 rules).filterMap (fun line0 =>
    let line := trimSpaceB line0
    if line = [] ∨ line.head? = some 35 then none
    else some (parsePattern line))

/-- Metadata returned by a successful stat (the fields of Go's `fs.FileInfo`
that `index.GetEntry` reads; `ModTime` is carried already formatted, the
RFC 3339 rendering being opaque to every claim). -/
structure FileInfo where
  name : GoStr
  size : Int
  mode : Nat
  modTime : GoStr
  isDir : Bool
deriving DecidableEq

/-- The repository's `index.Entry`. -/
structure Entry where
  name : GoStr
  size : Int
  mode : Nat
  modTime : GoStr
  isDir : Bool
  fsPath : GoStr
  linkPath : GoStr
deriving DecidableEq

/-- An abstract filesystem as seen through `os.DirFS("/")`: a stat oracle and
a directory-enumeration oracle (child base names, in enumeration order;
`none` models an error). -/
structure Fs where
  stat : GoStr → Option FileInfo
  readDir : GoStr → Option (List GoStr)

/-- Stat through `os.DirFS`: names failing `fs.ValidPath` are rejected before
reaching the OS, any failure is an error (`none`). -/
def dirStat (fs : Fs) (p : GoStr) : Option FileInfo :=
  if validPath p then fs.stat p else none

/-- ReadDir through `os.DirFS`, with the same `fs.ValidPath` gate. -/
def dirReadDir (fs : Fs) (p : GoStr) : Option (List GoStr) :=
  if validPath p then fs.readDir p else none

/-- The repository's `index.GetEntry(fsys, path)`: stat, then build the entry
with `LinkPath = url.JoinPath("/files", url.PathEscape(path))` (which never
errors for this base). `none` is the error return. -/
def getEntry (fs : Fs) (path : GoStr) : Option Entry :=
  match dirStat fs path with
  | none => none
  | some info =>
    some { name := info.name
           size := info.size
           mode := info.mode
           modTime := info.modTime
           isDir := info.isDir
           fsPath := path
           linkPath := joinPathFiles (pathEscape path) }

/-- The repository's `GlobMask.Masked(entry)`: a nil entry is masked; else the
path is split on `/` and the entry is masked exactly when the gitignore
matcher does NOT select it (the inverted include semantics). -/
def globMasked (pats : List GitPattern) (entry : Option Entry) : Bool :=
  match entry with
  | none => true
  | some e => !matcherMatch pats (splitSlash e.fsPath) e.isDir

/-- Child loop of `index.GetEntries`: resolve each child of `path` with
`GetEntry(fsys, filepath.Join(path, name))`; a resolution error aborts with an
error; an entry that is masked is silently skipped (the `entry == nil` arm of
the Go condition is unreachable, `GetEntry` never returns a nil entry with a
nil error). -/
def getEntriesGo (fs : Fs) (mask : List GitPattern) (path : GoStr) :
    List GoStr → Except Unit (List Entry)
  | [] => Except.ok []
  | c :: rest =>
    match getEntry fs (pathJoin2 path c) with
    | none => Except.error ()
    | some e =>
      if globMasked mask (some e) then getEntriesGo fs mask path rest
      else (getEntriesGo fs mask path rest).map (fun l => e :: l)

/-- The repository's `index.GetEntries(fsys, path, mask)`. -/
def getEntries (fs : Fs) (path : GoStr) (mask : List GitPattern) : Except Unit (List Entry) :=
  match dirReadDir fs path with
  | none => Except.error ()
  | some children => getEntriesGo fs mask path children

/-- Ordering used by `Server.ServeHTTP`'s `sort.Slice` comparator
`masked[i].Name < masked[j].Name`: Go string `<` is bytewise lexicographic. -/
def goStrLt : GoStr → GoStr → Bool
  | [], [] => false
  | [], _ :: _ => true
  | _ :: _, [] => false
  | a :: as_, b :: bs => a < b || (a = b && goStrLt as_ bs)

/-- Entries ordered by name, nondecreasing (the total preorder induced by the
`sort.Slice` less function). -/
def entryLe (a b : Entry) : Prop := goStrLt b.name a.name = false

instance : DecidableRel entryLe := fun a b => by
  unfold entryLe
  infer_instance

/-- Model of the `sort.Slice(masked, ...)` call: a sort of the entries by the
same less function (`sort.Slice` fixes no algorithm and is not stable; every
claim about it here is tie-independent). -/
def sortEntries (l : List Entry) : List Entry := List.insertionSort entryLe l

/-- The repository's `Entries.WriteHTML(w, directory, entries)`: a nil
directory or nil entry is an explicit error; otherwise the template renders
the listing, emitting the parent (`..`) row exactly when the template
condition `ne .Directory.LinkPath "/"` holds. The rendered model is returned
as (directory, rows, parent row present). -/
def writeHTML (directory : Option Entry) (entries : List (Option Entry)) :
    Except Unit (Entry × List Entry × Bool) :=
  match directory with
  | none => Except.error ()
  | some dir =>
    if entries.any (fun e => e.isNone) then Except.error ()
    else Except.ok (dir, entries.filterMap id, decide (dir.linkPath ≠ s2b "/"))

/-- HTTP responses distinguishable at the level of the claims: the three
`http.Error` shapes, the shared `http.NotFound` writer, a rendered directory
listing, and a file stream served by `http.ServeFileFS` from the given path. -/
inductive Response where
  | ok200Empty
  | methodNotAllowed
  | badRequest
  | notFound
  | internalError
  | listing (dir : Entry) (entries : List Entry) (parentRow : Bool)
  | fileStream (path : GoStr)
deriving DecidableEq

/-- The repository's `Server.ServeHTTP`, receiving the path left after
`http.StripPrefix("/files/", ...)`: method gate to GET/HEAD, percent-decode
(400 on failure), `filepath.Clean` (400 on the root sentinel `"."`), resolve
via `index.GetEntry` over `os.DirFS("/")` (404 on failure), 404 if masked,
then either render a sorted masked listing (500 on an internal failure) or
stream the file. -/
def serveHTTP (fs : Fs) (mask : List GitPattern) (method urlPath : GoStr) : Response :=
  if method ≠ s2b "GET" ∧ method ≠ s2b "HEAD" then Response.methodNotAllowed
  else
    match pathUnescape urlPath with
    | none => Response.badRequest
    | some s =>
      let fsPath := filepathClean s
      if fsPath = s2b "." then Response.badRequest
      else
        match getEntry fs fsPath with
        | none => Response.notFound
        | some entry =>
          if globMasked mask (some entry) then Response.notFound
          else if entry.isDir then
            match getEntries fs entry.fsPath mask with
            | Except.error _ => Response.internalError
            | Except.ok ms =>
              match writeHTML (some entry) ((sortEntries ms).map some) with
              | Except.error _ => Response.internalError
              | Except.ok (d, es, pr) => Response.listing d es pr
          else Response.fileStream entry.fsPath

/-- The root handler registered in `Run` on pattern `"/"`: 404 for any path
other than exactly `"/"`, else a bare 200 with empty body. No method check. -/
def rootHandler (method urlPath : GoStr) : Response :=
  if urlPath ≠ s2b "/" then Response.notFound else Response.ok200Empty

/-- The mux wiring of `Run`: requests under `/files/` go to the file server
with the prefix stripped, everything else to the root handler. (`ServeMux`
path canonicalization/redirects are outside this model; `method` is passed
through untouched, no pattern restricts it.) -/
def muxServe (fs : Fs) (mask : List GitPattern) (method urlPath : GoStr) : Response :=
  match stripPrefB (s2b "/files/") urlPath with
  | some rest => serveHTTP fs mask method rest
  | none => rootHandler method urlPath

/-- A cleaned path that denotes a location outside the serving root: it is
absolute (escapes the DirFS-relative namespace) or begins with a `..`
element (after `filepath.Clean`, `..` elements only survive at the front). -/
def escapesRoot (c : GoStr) : Bool :=
  decide (c.head? = some 47) || decide ((splitSlash c).head? = some [46, 46])

/-- Entry fixture carrying only the fields the mask inspects. -/
def mkEntry (p : String) (d : Bool) : Entry :=
  { name := [], size := 0, mode := 0, modTime := [], isDir := d, fsPath := s2b p, linkPath := [] }

/-- FileInfo fixture. -/
def fi (n : String) (d : Bool) : FileInfo :=
  { name := s2b n, size := 3, mode := 420, modTime := s2b "t", isDir := d }

/-- The mask of the end-to-end scenario: rule text `"**/*.go\n**/secrets/"`. -/
def c3mask : List GitPattern := newGlobMask (s2b "**/*.go\n**/secrets/")

/-- The serving tree of the end-to-end scenario: `main.go`, `README.md`,
`secrets/key.go` under the root. -/
def c3fs : Fs :=
  { stat := fun p =>
      if p = s2b "." then some (fi "." true)
      else if p = s2b "main.go" then some (fi "main.go" false)
      else if p = s2b "README.md" then some (fi "README.md" false)
      else if p = s2b "secrets" then some (fi "secrets" true)
      else if p = s2b "secrets/key.go" then some (fi "key.go" false)
      else none
    readDir := fun p =>
      if p = s2b "." then some [s2b "README.md", s2b "main.go", s2b "secrets"]
      else if p = s2b "secrets" then some [s2b "key.go"]
      else none }

/-- The entry `GetEntry` produces for `secrets` in `c3fs`. -/
def secretsDirEntry : Entry :=
  { name := s2b "secrets", size := 3, mode := 420, modTime := s2b "t", isDir := true,
    fsPath := s2b "secrets", linkPath := s2b "/files/secrets" }

/-- The entry `GetEntry` produces for `secrets/key.go` in `c3fs`. -/
def keyGoEntry : Entry :=
  { name := s2b "key.go", size := 3, mode := 420, modTime := s2b "t", isDir := false,
    fsPath := s2b "secrets/key.go", linkPath := s2b "/files/secrets%2Fkey.go" }

/-- The entry `GetEntry` produces for `main.go` in `c3fs`. -/
def mainGoEntry : Entry :=
  { name := s2b "main.go", size := 3, mode := 420, modTime := s2b "t", isDir := false,
    fsPath := s2b "main.go", linkPath := s2b "/files/main.go" }

/-- The entry `GetEntry` produces for the serving root `"."` in `c3fs`:
note the link `"/files"`, with no trailing separator. -/
def rootDirEntry : Entry :=
  { name := s2b ".", size := 3, mode := 420, modTime := s2b "t", isDir := true,
    fsPath := s2b ".", linkPath := s2b "/files" }

/-- The mixed-polarity rule list of the last-match-wins example. -/
def c4mask : List GitPattern := newGlobMask (s2b "*.go\n!secret.go\nsecret.go")

/-- The path `secret.go` as a non-directory entry. -/
def secretGoEntry : Entry := mkEntry "secret.go" false

/-- Listing-order fixtures. -/
def entA : Entry := { name := s2b "a.txt", size := 0, mode := 0, modTime := [], isDir := false,
                      fsPath := s2b "a.txt", linkPath := [] }

/-- Listing-order fixtures. -/
def entB : Entry := { name := s2b "b.txt", size := 0, mode := 0, modTime := [], isDir := false,
                      fsPath := s2b "b.txt", linkPath := [] }

/-- Listing-order fixtures. -/
def entC : Entry := { name := s2b "c.txt", size := 0, mode := 0, modTime := [], isDir := false,
                      fsPath := s2b "c.txt", linkPath := [] }

theorem splitOnByte_ne_nil (b : Nat) (s : GoStr) : splitOnByte b s ≠ [] := by
  cases s with
  | nil => simp [splitOnByte]
  | cons c r =>
    simp only [splitOnByte]
    split <;> simp

theorem splitOnByte_no_sep (b : Nat) (s : GoStr) (h : containsByte b s = false) :
    splitOnByte b s = [s] := by
  induction s with
  | nil => rfl
  | cons c r ih =>
    simp only [containsByte, List.any_cons, Bool.or_eq_false_iff] at h
    obtain ⟨h1, h2⟩ := h
    have hcb : c ≠ b := by simpa using h1
    simp only [splitOnByte, if_neg hcb]
    rw [ih h2]
    rfl

theorem escapesRoot_ne_dot (c : GoStr) (h : escapesRoot c = true) : c ≠ [46] := by
  intro he
  subst he
  simp [escapesRoot, splitSlash, splitOnByte] at h

theorem escapesRoot_not_valid (c : GoStr) (h : escapesRoot c = true) : validPath c = false := by
  simp only [escapesRoot, Bool.or_eq_true, decide_eq_true_eq] at h
  simp only [validPath, Bool.and_eq_false_iff, Bool.or_eq_false_iff]
  rcases h with h | h
  · cases c with
    | nil => simp at h
    | cons c0 r =>
      simp only [List.head?_cons, Option.some.injEq] at h
      subst h
      right
      refine ⟨by simp, ?_⟩
      simp [splitSlash, splitOnByte, List.all_cons]
  · right
    refine ⟨?_, ?_⟩
    · have : c ≠ [46] := by
        intro he
        rw [he] at h
        simp [splitSlash, splitOnByte] at h
      simpa using this
    · cases hs : splitSlash c with
      | nil => exact absurd hs (splitOnByte_ne_nil 47 c)
      | cons e es =>
        rw [hs] at h
        simp only [List.head?_cons, Option.some.injEq] at h
        subst h
        simp [List.all_cons]

theorem valid_not_escapes (q : GoStr) (h : validPath q = true) : escapesRoot q = false := by
  simp only [validPath, Bool.and_eq_true, Bool.or_eq_true, decide_eq_true_eq] at h
  simp only [escapesRoot, Bool.or_eq_false_iff, decide_eq_false_iff_not]
  obtain ⟨-, h⟩ := h
  rcases h with h | h
  · subst h
    refine ⟨by simp, ?_⟩
    simp [splitSlash, splitOnByte]
  · rw [List.all_eq_true] at h
    refine ⟨?_, ?_⟩
    · intro hq
      cases q with
      | nil => simp at hq
      | cons c0 r =>
        simp only [List.head?_cons, Option.some.injEq] at hq
        subst hq
        have hm : ([] : GoStr) ∈ splitSlash (47 :: r) := by
          simp [splitSlash, splitOnByte]
        have := h _ hm
        simp at this
    · intro hq
      cases hs : splitSlash q with
      | nil => exact absurd hs (splitOnByte_ne_nil 47 q)
      | cons e es =>
        rw [hs] at hq
        simp only [List.head?_cons, Option.some.injEq] at hq
        subst hq
        have hm : ([46, 46] : GoStr) ∈ splitSlash q := by rw [hs]; simp
        have := h _ hm
        simp at this

theorem utf8Scan_lt (p : List Nat) : ∀ (k lo hi : Nat), hi < 256 →
    utf8Scan k lo hi p = true → ∀ c ∈ p, c < 256 := by
  induction p with
  | nil => simp
  | cons c rest ih =>
    intro k lo hi hhi h
    match k with
    | 0 =>
      rw [utf8Scan] at h
      split_ifs at h with h1 h2 h3 h4 h5 h6 h7 h8 h9
      all_goals first
        | simp at h
        | (intro x hx
           rcases List.mem_cons.mp hx with rfl | hx
           · omega
           · exact ih _ _ _ (by omega) h x hx)
    | k + 1 =>
      rw [utf8Scan] at h
      simp only [Bool.and_eq_true, decide_eq_true_eq] at h
      intro x hx
      rcases List.mem_cons.mp hx with rfl | hx
      · omega
      · exact ih _ _ _ (by omega) h.2 x hx

theorem utf8Valid_lt (p : List Nat) (h : utf8Valid p = true) : ∀ c ∈ p, c < 256 :=
  utf8Scan_lt p 0 0 0 (by omega) h

theorem validPath_lt (p : GoStr) (h : validPath p = true) : ∀ c ∈ p, c < 256 := by
  simp only [validPath, Bool.and_eq_true] at h
  exact utf8Valid_lt p h.1

theorem hexDig_ne37 (d : Nat) : hexDig d ≠ 37 := by
  unfold hexDig
  split <;> omega

theorem hexDig_ne47 (d : Nat) : hexDig d ≠ 47 := by
  unfold hexDig
  split <;> omega

theorem unhexB_hexDig (d : Nat) (h : d < 16) : unhexB (hexDig d) = some d := by
  unfold hexDig unhexB
  split_ifs <;> first | (congr 1; omega) | omega

theorem sEscSeg_false_ne37 (c : Nat) (h : shouldEscapeSeg c = false) : c ≠ 37 := by
  unfold shouldEscapeSeg at h
  split_ifs at h with h1 h2
  · simp only [isAlnumB, isMarkB, Bool.or_eq_true, Bool.and_eq_true, decide_eq_true_eq] at h1
    omega
  · simp only [isReservedB, Bool.or_eq_true, decide_eq_true_eq] at h2
    omega

theorem sEscSeg_false_ne47 (c : Nat) (h : shouldEscapeSeg c = false) : c ≠ 47 := by
  unfold shouldEscapeSeg at h
  split_ifs at h with h1 h2
  · simp only [isAlnumB, isMarkB, Bool.or_eq_true, Bool.and_eq_true, decide_eq_true_eq] at h1
    omega
  · simp only [Bool.or_eq_false_iff, decide_eq_false_iff_not] at h
    exact h.1.1.1

theorem sEscSeg_false_validEnc (c : Nat) (h : shouldEscapeSeg c = false) : validEncByte c = true := by
  unfold shouldEscapeSeg at h
  split_ifs at h with h1 h2
  · simp [validEncByte, shouldEscapePath, h1]
  · simp only [isReservedB, Bool.or_eq_true, decide_eq_true_eq] at h2
    simp only [Bool.or_eq_false_iff, decide_eq_false_iff_not] at h
    obtain ⟨⟨⟨h47, h59⟩, h44⟩, h63⟩ := h
    have h6 : c = 36 ∨ c = 38 ∨ c = 43 ∨ c = 58 ∨ c = 61 ∨ c = 64 := by omega
    rcases h6 with rfl | rfl | rfl | rfl | rfl | rfl <;> decide

theorem pathEscape_no47 (p : GoStr) : containsByte 47 (pathEscape p) = false := by
  induction p with
  | nil => rfl
  | cons c r ih =>
    simp only [pathEscape, escapeWith] at *
    split
    · simp only [containsByte, List.any_cons, Bool.or_eq_false_iff]
      refine ⟨by simp, ⟨by simpa using (hexDig_ne47 (c / 16)), by simpa using (hexDig_ne47 (c % 16)), ?_⟩⟩
      exact ih
    · rename_i hesc
      simp only [containsByte, List.any_cons, Bool.or_eq_false_iff]
      exact ⟨by simpa using sEscSeg_false_ne47 c (by simpa using hesc), ih⟩

theorem pathEscape_nil_iff (p : GoStr) : pathEscape p = [] ↔ p = [] := by
  cases p with
  | nil => simp [pathEscape, escapeWith]
  | cons c r =>
    simp only [pathEscape, escapeWith]
    constructor
    · intro h
      split at h <;> simp at h
    · intro h
      simp at h

theorem pathEscape_eq_dot (p : GoStr) (h : pathEscape p = [46]) : p = [46] := by
  cases p with
  | nil => simp [pathEscape, escapeWith] at h
  | cons c r =>
    simp only [pathEscape, escapeWith] at h
    split at h
    · simp only [List.cons.injEq] at h
      omega
    · rename_i hesc
      simp only [List.cons.injEq] at h
      obtain ⟨rfl, hr⟩ := h
      have := (pathEscape_nil_iff r).mp hr
      simp [this]

theorem pathEscape_eq_dotdot (p : GoStr) (h : pathEscape p = [46, 46]) : p = [46, 46] := by
  cases p with
  | nil => simp [pathEscape, escapeWith] at h
  | cons c r =>
    simp only [pathEscape, escapeWith] at h
    split at h
    · simp only [List.cons.injEq] at h
      omega
    · rename_i hesc
      simp only [List.cons.injEq] at h
      obtain ⟨rfl, hr⟩ := h
      have h2 := pathEscape_eq_dot r hr
      simp [h2]

theorem unescapeF_irrel (fuel1 : Nat) : ∀ (s : GoStr) (fuel2 : Nat),
    s.length < fuel1 → s.length < fuel2 → unescapeF fuel1 s = unescapeF fuel2 s := by
  induction fuel1 with
  | zero => intro s fuel2 h1; omega
  | succ f1 ih =>
    intro s fuel2 h1 h2
    match s, fuel2 with
    | s, 0 => omega
    | [], f2 + 1 => rfl
    | c :: r, f2 + 1 =>
      rw [unescapeF, unescapeF]
      by_cases hc : c = 37
      · rw [if_pos hc, if_pos hc]
        simp only [List.length_cons] at h1 h2
        match r with
        | [] => rfl
        | [a] => rfl
        | a :: b :: r2 =>
          simp only [unescapePct]
          simp only [List.length_cons] at h1 h2
          rw [ih r2 f2 (by omega) (by omega)]
      · rw [if_neg hc, if_neg hc]
        simp only [List.length_cons] at h1 h2
        rw [ih r f2 (by omega) (by omega)]

theorem unescapeB_cons_ne37 (c : Nat) (r : GoStr) (h : c ≠ 37) :
    unescapeB (c :: r) = (unescapeB r).map (fun t => c :: t) := by
  unfold unescapeB
  simp only [List.length_cons]
  rw [unescapeF, if_neg h]

theorem unescapeB_pct (a b : Nat) (r2 : GoStr) :
    unescapeB (37 :: a :: b :: r2) =
      (match unhexB a, unhexB b with
       | some x, some y => (unescapeB r2).map (fun t => (x * 16 + y) :: t)
       | _, _ => none) := by
  unfold unescapeB
  simp only [List.length_cons]
  rw [unescapeF, if_pos rfl]
  simp only [unescapePct]
  rw [unescapeF_irrel (r2.length + 3) r2 (r2.length + 1) (by omega) (by omega)]

theorem unescapeB_pathEscape (p : GoStr) (hb : ∀ c ∈ p, c < 256) :
    unescapeB (pathEscape p) = some p := by
  induction p with
  | nil => rfl
  | cons c r ih =>
    have hc : c < 256 := hb c (by simp)
    have ihr : unescapeB (escapeWith shouldEscapeSeg r) = some r :=
      ih (fun x hx => hb x (by simp [hx]))
    simp only [pathEscape, escapeWith]
    split
    · rw [unescapeB_pct]
      rw [unhexB_hexDig (c / 16) (by omega), unhexB_hexDig (c % 16) (by omega)]
      rw [ihr]
      simp only [Option.map_some', Option.some.injEq, List.cons.injEq]
      exact ⟨by omega, trivial⟩
    · rename_i hesc
      rw [unescapeB_cons_ne37 c _ (sEscSeg_false_ne37 c (by simpa using hesc))]
      rw [ihr]
      rfl

theorem s2b_files : s2b "/files" = [47, 102, 105, 108, 101, 115] := rfl

theorem s2b_files_slash : s2b "/files/" = [47, 102, 105, 108, 101, 115, 47] := rfl

theorem unescapeB_files (x : GoStr) :
    unescapeB (47 :: 102 :: 105 :: 108 :: 101 :: 115 :: 47 :: x) =
      (unescapeB x).map (fun t => 47 :: 102 :: 105 :: 108 :: 101 :: 115 :: 47 :: t) := by
  rw [unescapeB_cons_ne37 47 _ (by omega), unescapeB_cons_ne37 102 _ (by omega),
    unescapeB_cons_ne37 105 _ (by omega), unescapeB_cons_ne37 108 _ (by omega),
    unescapeB_cons_ne37 101 _ (by omega), unescapeB_cons_ne37 115 _ (by omega),
    unescapeB_cons_ne37 47 _ (by omega)]
  cases unescapeB x <;> rfl

theorem validEnc_hexDig (d : Nat) (h : d < 16) : validEncByte (hexDig d) = true := by
  interval_cases d <;> decide

theorem pathEscape_all_validEnc (p : GoStr) (hb : ∀ c ∈ p, c < 256) :
    (pathEscape p).all validEncByte = true := by
  induction p with
  | nil => rfl
  | cons c r ih =>
    have hc : c < 256 := hb c (by simp)
    have ihr := ih (fun x hx => hb x (by simp [hx]))
    simp only [pathEscape, escapeWith]
    split
    · simp only [List.all_cons, Bool.and_eq_true]
      exact ⟨by decide, validEnc_hexDig (c / 16) (by omega), validEnc_hexDig (c % 16) (by omega), ihr⟩
    · rename_i hesc
      simp only [List.all_cons, Bool.and_eq_true]
      exact ⟨sEscSeg_false_validEnc c (by simpa using hesc), ihr⟩

theorem splitSlash_files (e : GoStr) (h : containsByte 47 e = false) :
    splitSlash (47 :: 102 :: 105 :: 108 :: 101 :: 115 :: 47 :: e) =
      [[], [102, 105, 108, 101, 115], e] := by
  have he := splitOnByte_no_sep 47 e h
  simp [splitSlash, splitOnByte, he]

theorem cleanFold_files (e : GoStr) (h1 : e ≠ []) (h3 : e ≠ [46]) (h4 : e ≠ [46, 46]) :
    cleanFold true [] [[], [102, 105, 108, 101, 115], e] = [[102, 105, 108, 101, 115], e] := by
  rw [cleanFold, if_pos (by simp)]
  rw [cleanFold, if_neg (by simp), if_neg (by simp)]
  rw [cleanFold, if_neg (by simp [h1, h3]), if_neg (by simp [h4])]
  rfl

theorem clean_files (e : GoStr) (h1 : e ≠ []) (h2 : containsByte 47 e = false)
    (h3 : e ≠ [46]) (h4 : e ≠ [46, 46]) :
    pathJoin2 (s2b "/files") e = 47 :: 102 :: 105 :: 108 :: 101 :: 115 :: 47 :: e := by
  rw [pathJoin2, if_neg (by simp [s2b_files, h1]), if_neg (by simp [s2b_files]), if_neg h1]
  rw [s2b_files]
  rw [filepathClean, if_neg (by simp)]
  simp only [List.cons_append, List.nil_append, List.head?_cons, reduceIte, decide_True]
  rw [splitSlash_files e h2, cleanFold_files e h1 h3 h4]
  rfl

theorem hasSuffB_47 (e : GoStr) (h : containsByte 47 e = false) : hasSuffB [47] e = false := by
  cases hr : e.reverse with
  | nil => simp [hasSuffB, hasPrefB, hr]
  | cons c cs =>
    simp only [hasSuffB, hr, hasPrefB, List.reverse_cons, List.reverse_nil, List.nil_append]
    have hc : c ∈ e := by
      have hm : c ∈ e.reverse := by rw [hr]; simp
      simpa using hm
    have hcne : c ≠ 47 := by
      intro hcc
      subst hcc
      simp only [containsByte, List.any_eq_false, decide_eq_true_eq] at h
      exact h 47 hc rfl
    have h47 : ¬((47 : Nat) = c) := fun hh => hcne hh.symm
    simp [h47]

theorem validEncodedPath_files (p : GoStr) (hb : ∀ c ∈ p, c < 256) :
    validEncodedPath (47 :: 102 :: 105 :: 108 :: 101 :: 115 :: 47 :: pathEscape p) = true := by
  simp only [validEncodedPath, List.all_cons, Bool.and_eq_true]
  refine ⟨by decide, by decide, by decide, by decide, by decide, by decide, by decide, ?_⟩
  exact pathEscape_all_validEnc p hb

theorem joinPathFiles_escape (p : GoStr) (hv : validPath p = true) (hne : p ≠ [46]) :
    joinPathFiles (pathEscape p) = 47 :: 102 :: 105 :: 108 :: 101 :: 115 :: 47 :: pathEscape p := by
  have hb := validPath_lt p hv
  have hp0 : p ≠ [] := by rintro rfl; revert hv; decide
  have hpdd : p ≠ [46, 46] := by rintro rfl; revert hv; decide
  have hno47 := pathEscape_no47 p
  have he0 : pathEscape p ≠ [] := fun h => hp0 ((pathEscape_nil_iff p).mp h)
  have hedot : pathEscape p ≠ [46] := fun h => hne (pathEscape_eq_dot p h)
  have hedd : pathEscape p ≠ [46, 46] := fun h => hpdd (pathEscape_eq_dotdot p h)
  simp only [joinPathFiles]
  rw [clean_files _ he0 hno47 hedot hedd]
  rw [if_neg (by
    rintro ⟨hsuf, -⟩
    rw [hasSuffB_47 _ hno47] at hsuf
    exact absurd hsuf (by simp))]
  rw [unescapeB_files, unescapeB_pathEscape p hb]
  simp only [Option.map_some']
  split
  · rfl
  · rw [if_pos (validEncodedPath_files p hb)]

theorem stripPrefB_append (pre x : GoStr) : stripPrefB pre (pre ++ x) = some x := by
  induction pre with
  | nil => rfl
  | cons c cs ih => simp [stripPrefB, ih]

theorem getEntry_eq_some (fs : Fs) (p : GoStr) (e : Entry) (h : getEntry fs p = some e) :
    validPath p = true ∧ e.fsPath = p ∧ e.linkPath = joinPathFiles (pathEscape p) := by
  unfold getEntry dirStat at h
  by_cases hv : validPath p
  · rw [if_pos hv] at h
    cases hs : fs.stat p with
    | none => rw [hs] at h; simp at h
    | some info =>
      rw [hs] at h
      simp only [Option.some.injEq] at h
      subst h
      exact ⟨hv, rfl, rfl⟩
  · rw [if_neg hv] at h
    simp at h

theorem getEntry_none_of_invalid (fs : Fs) (p : GoStr) (hv : validPath p = false) :
    getEntry fs p = none := by
  unfold getEntry dirStat
  rw [hv]
  simp

theorem getEntry_linkPath (fs : Fs) (p : GoStr) (e : Entry) (h : getEntry fs p = some e)
    (hne : p ≠ [46]) :
    e.linkPath = 47 :: 102 :: 105 :: 108 :: 101 :: 115 :: 47 :: pathEscape p := by
  obtain ⟨hv, -, hl⟩ := getEntry_eq_some fs p e h
  rw [hl, joinPathFiles_escape p hv hne]

theorem patternMatch_excl_iff (gp : GitPattern) (path : List GoStr) (d : Bool)
    (h : patternMatch gp path d ≠ MatchResult.noMatch) :
    (patternMatch gp path d = MatchResult.excl ↔ gp.inclusion = false) := by
  unfold patternMatch at *
  cases path with
  | nil => simp at h
  | cons e es =>
    split at h
    · simp at h
    · split
      · simp_all
      · simp_all

theorem matchScan_iff (l : List GitPattern) (path : List GoStr) (d : Bool) :
    matchScan l path d = true ↔
      ∃ gp, (l.filter (fun q => decide (patternMatch q path d ≠ MatchResult.noMatch))).head? =
          some gp ∧ patternMatch gp path d = MatchResult.excl := by
  induction l with
  | nil => simp [matchScan]
  | cons gp rest ih =>
    rw [matchScan]
    cases hm : patternMatch gp path d with
    | noMatch => simp [List.filter_cons, hm, ih]
    | excl => simp [List.filter_cons, hm]
    | incl => simp [List.filter_cons, hm]

theorem getEntriesGo_error (fs : Fs) (mask : List GitPattern) (path : GoStr) (cs : List GoStr)
    (hc : ∃ c ∈ cs, getEntry fs (pathJoin2 path c) = none) :
    getEntriesGo fs mask path cs = Except.error () := by
  induction cs with
  | nil => simp at hc
  | cons c rest ih =>
    obtain ⟨c0, hmem, hnone⟩ := hc
    rw [getEntriesGo]
    rcases List.mem_cons.mp hmem with rfl | hmem'
    · rw [hnone]
    · cases hg : getEntry fs (pathJoin2 path c) with
      | none => rfl
      | some e =>
        have herr := ih ⟨c0, hmem', hnone⟩
        rw [herr]
        split <;> first | rfl | (split <;> rfl)

theorem getEntriesGo_ok (fs : Fs) (mask : List GitPattern) (path : GoStr) (cs : List GoStr)
    (hc : ∀ c ∈ cs, getEntry fs (pathJoin2 path c) ≠ none) :
    getEntriesGo fs mask path cs = Except.ok (cs.filterMap (fun c =>
      match getEntry fs (pathJoin2 path c) with
      | none => none
      | some e => if globMasked mask (some e) then none else some e)) := by
  induction cs with
  | nil => rfl
  | cons c rest ih =>
    cases hg : getEntry fs (pathJoin2 path c) with
    | none => exact absurd hg (hc c (by simp))
    | some e =>
      have ihr := ih (fun x hx => hc x (by simp [hx]))
      rw [getEntriesGo, hg]
      show (if globMasked mask (some e) = true then getEntriesGo fs mask path rest
            else Except.map (fun l => e :: l) (getEntriesGo fs mask path rest)) = _
      by_cases hmask : globMasked mask (some e) = true
      · rw [if_pos hmask, ihr]
        simp [List.filterMap_cons, hg, hmask]
      · rw [if_neg hmask, ihr]
        simp [List.filterMap_cons, hg, hmask, Except.map]

theorem writeHTML_map_some (d : Entry) (l : List Entry) :
    writeHTML (some d) (l.map some) =
      Except.ok (d, l, decide (d.linkPath ≠ s2b "/")) := by
  rw [writeHTML]
  rw [if_neg (by simp)]
  simp

theorem goStrLt_asymm (a : GoStr) : ∀ b, goStrLt a b = true → goStrLt b a = false := by
  induction a with
  | nil => intro b h; cases b <;> simp [goStrLt] at h ⊢
  | cons x xs ih =>
    intro b h
    cases b with
    | nil => simp [goStrLt] at h
    | cons y ys =>
      simp only [goStrLt, Bool.or_eq_true, Bool.and_eq_true, decide_eq_true_eq] at h
      simp only [goStrLt, Bool.or_eq_false_iff, Bool.and_eq_false_iff]
      rcases h with h | ⟨rfl, h⟩
      · exact ⟨by simp; omega, Or.inl (by simp; omega)⟩
      · exact ⟨by simp, Or.inr (ih ys h)⟩

theorem goStrLt_trans (a : GoStr) : ∀ b c, goStrLt a b = true → goStrLt b c = true →
    goStrLt a c = true := by
  induction a with
  | nil =>
    intro b c h1 h2
    cases b with
    | nil => simp [goStrLt] at h1
    | cons y ys =>
      cases c with
      | nil => simp [goStrLt] at h2
      | cons z zs => simp [goStrLt]
  | cons x xs ih =>
    intro b c h1 h2
    cases b with
    | nil => simp [goStrLt] at h1
    | cons y ys =>
      cases c with
      | nil => simp [goStrLt] at h2
      | cons z zs =>
        simp only [goStrLt, Bool.or_eq_true, Bool.and_eq_true, decide_eq_true_eq] at h1 h2 ⊢
        rcases h1 with h1 | ⟨rfl, h1⟩
        · rcases h2 with h2 | ⟨rfl, h2⟩
          · left; omega
          · left; omega
        · rcases h2 with h2 | ⟨rfl, h2⟩
          · left; omega
          · exact Or.inr ⟨rfl, ih ys zs h1 h2⟩

theorem goStrLt_conn (a : GoStr) : ∀ b, goStrLt a b = false → goStrLt b a = false → a = b := by
  induction a with
  | nil =>
    intro b h1 _
    cases b with
    | nil => rfl
    | cons y ys => simp [goStrLt] at h1
  | cons x xs ih =>
    intro b h1 h2
    cases b with
    | nil => simp [goStrLt] at h2
    | cons y ys =>
      simp only [goStrLt, Bool.or_eq_false_iff, Bool.and_eq_false_iff, decide_eq_false_iff_not] at h1 h2
      obtain ⟨hxy, h1'⟩ := h1
      obtain ⟨hyx, h2'⟩ := h2
      have hxyeq : x = y := by omega
      subst hxyeq
      rcases h1' with h1' | h1'
      · simp at h1'
      · rcases h2' with h2' | h2'
        · simp at h2'
        · rw [ih ys h1' h2']

instance : IsTrans Entry entryLe := by
  constructor
  intro a b c hab hbc
  unfold entryLe at *
  cases h : goStrLt c.name a.name
  · rfl
  · exfalso
    cases h4 : goStrLt a.name b.name
    · have heq := goStrLt_conn _ _ h4 hab
      rw [heq] at h
      rw [h] at hbc
      simp at hbc
    · have htr := goStrLt_trans _ _ _ h h4
      rw [htr] at hbc
      simp at hbc

instance : IsTotal Entry entryLe := by
  constructor
  intro a b
  unfold entryLe
  cases h : goStrLt b.name a.name
  · exact Or.inl rfl
  · exact Or.inr (goStrLt_asymm _ _ h)

theorem sorted_strict_of_nodup (m : List Entry) (hs : List.Sorted entryLe m)
    (hnd : (m.map (fun e => e.name)).Nodup) :
    List.Pairwise (fun a b : Entry => goStrLt a.name b.name = true) m := by
  have hnd' : List.Pairwise (fun a b : Entry => a.name ≠ b.name) m := List.pairwise_map.mp hnd
  have hand := List.Pairwise.and hs hnd'
  refine hand.imp ?_
  intro a b hab
  obtain ⟨hle, hne⟩ := hab
  cases hlt : goStrLt a.name b.name
  · exact absurd (goStrLt_conn _ _ hlt hle) hne
  · rfl

theorem sortEntries_deterministic (l1 l2 : List Entry) (hp : l1.Perm l2)
    (hn : (l1.map (fun e => e.name)).Nodup) : sortEntries l1 = sortEntries l2 := by
  have hs1 : List.Sorted entryLe (sortEntries l1) := List.sorted_insertionSort entryLe l1
  have hs2 : List.Sorted entryLe (sortEntries l2) := List.sorted_insertionSort entryLe l2
  have hp1 : (sortEntries l1).Perm l1 := List.perm_insertionSort entryLe l1
  have hp2 : (sortEntries l2).Perm l2 := List.perm_insertionSort entryLe l2
  have hperm : (sortEntries l1).Perm (sortEntries l2) := hp1.trans (hp.trans hp2.symm)
  have hn1 : ((sortEntries l1).map (fun e => e.name)).Nodup :=
    ((hp1.map (fun e => e.name)).nodup_iff).mpr hn
  have hn2 : ((sortEntries l2).map (fun e => e.name)).Nodup :=
    ((hp2.map (fun e => e.name)).nodup_iff).mpr
      (((hp.map (fun e => e.name)).nodup_iff).mp hn)
  haveI : IsAntisymm Entry (fun a b : Entry => goStrLt a.name b.name = true) := by
    constructor
    intro a b h1 h2
    exfalso
    have hasym := goStrLt_asymm _ _ h1
    rw [h2] at hasym
    simp at hasym
  exact List.eq_of_perm_of_sorted hperm
    (sorted_strict_of_nodup _ hs1 hn1) (sorted_strict_of_nodup _ hs2 hn2)

theorem serveHTTP_masked (fs : Fs) (mask : List GitPattern) (m p s : GoStr) (e : Entry)
    (hm : ¬(m ≠ s2b "GET" ∧ m ≠ s2b "HEAD")) (hu : pathUnescape p = some s)
    (hd : filepathClean s ≠ s2b ".") (hg : getEntry fs (filepathClean s) = some e)
    (hmask : globMasked mask (some e) = true) :
    serveHTTP fs mask m p = Response.notFound := by
  simp only [serveHTTP, if_neg hm, hu, if_neg hd, hg, hmask, if_true]

theorem serveHTTP_absent (fs : Fs) (mask : List GitPattern) (m p s : GoStr)
    (hm : ¬(m ≠ s2b "GET" ∧ m ≠ s2b "HEAD")) (hu : pathUnescape p = some s)
    (hd : filepathClean s ≠ s2b ".") (hg : getEntry fs (filepathClean s) = none) :
    serveHTTP fs mask m p = Response.notFound := by
  simp only [serveHTTP, if_neg hm, hu, if_neg hd, hg]

theorem serveHTTP_file (fs : Fs) (mask : List GitPattern) (m p s : GoStr) (e : Entry)
    (hm : ¬(m ≠ s2b "GET" ∧ m ≠ s2b "HEAD")) (hu : pathUnescape p = some s)
    (hd : filepathClean s ≠ s2b ".") (hg : getEntry fs (filepathClean s) = some e)
    (hmask : globMasked mask (some e) = false) (hdir : e.isDir = false) :
    serveHTTP fs mask m p = Response.fileStream e.fsPath := by
  simp only [serveHTTP, if_neg hm, hu, if_neg hd, hg, hmask, hdir, if_false, Bool.false_eq_true]

theorem serveHTTP_dir (fs : Fs) (mask : List GitPattern) (m p s : GoStr) (e : Entry)
    (hm : ¬(m ≠ s2b "GET" ∧ m ≠ s2b "HEAD")) (hu : pathUnescape p = some s)
    (hd : filepathClean s ≠ s2b ".") (hg : getEntry fs (filepathClean s) = some e)
    (hmask : globMasked mask (some e) = false) (hdir : e.isDir = true) :
    serveHTTP fs mask m p =
      (match getEntries fs e.fsPath mask with
       | Except.error _ => Response.internalError
       | Except.ok ms =>
         Response.listing e (sortEntries ms) (decide (e.linkPath ≠ s2b "/"))) := by
  simp only [serveHTTP, if_neg hm, hu, if_neg hd, hg, hmask, hdir, if_true, Bool.false_eq_true]
  cases hge : getEntries fs e.fsPath mask with
  | error u => simp [hge]
  | ok ms => simp [hge, writeHTML_map_some]

theorem serveHTTP_badRequest_unescape (fs : Fs) (mask : List GitPattern) (m p : GoStr)
    (hm : ¬(m ≠ s2b "GET" ∧ m ≠ s2b "HEAD")) (hu : pathUnescape p = none) :
    serveHTTP fs mask m p = Response.badRequest := by
  simp only [serveHTTP, if_neg hm, hu]

theorem serveHTTP_badRequest_dot (fs : Fs) (mask : List GitPattern) (m p s : GoStr)
    (hm : ¬(m ≠ s2b "GET" ∧ m ≠ s2b "HEAD")) (hu : pathUnescape p = some s)
    (hd : filepathClean s = s2b ".") :
    serveHTTP fs mask m p = Response.badRequest := by
  simp only [serveHTTP, if_neg hm, hu, if_pos hd]

theorem serveHTTP_405 (fs : Fs) (mask : List GitPattern) (m p : GoStr)
    (hm : m ≠ s2b "GET" ∧ m ≠ s2b "HEAD") :
    serveHTTP fs mask m p = Response.methodNotAllowed := by
  simp only [serveHTTP, if_pos hm]

theorem serveHTTP_fileStream_inv (fs : Fs) (mask : List GitPattern) (m p q : GoStr)
    (h : serveHTTP fs mask m p = Response.fileStream q) :
    ∃ s e, pathUnescape p = some s ∧ filepathClean s ≠ s2b "." ∧
      getEntry fs (filepathClean s) = some e ∧ globMasked mask (some e) = false ∧
      e.isDir = false ∧ q = e.fsPath := by
  by_cases hm' : (m ≠ s2b "GET" ∧ m ≠ s2b "HEAD")
  · rw [serveHTTP_405 fs mask m p hm'] at h
    simp at h
  · cases hpu : pathUnescape p with
    | none =>
      rw [serveHTTP_badRequest_unescape fs mask m p hm' hpu] at h
      simp at h
    | some s =>
      by_cases hd : filepathClean s = s2b "."
      · rw [serveHTTP_badRequest_dot fs mask m p s hm' hpu hd] at h
        simp at h
      · cases hg : getEntry fs (filepathClean s) with
        | none =>
          rw [serveHTTP_absent fs mask m p s hm' hpu hd hg] at h
          simp at h
        | some e =>
          cases hmask : globMasked mask (some e) with
          | true =>
            rw [serveHTTP_masked fs mask m p s e hm' hpu hd hg hmask] at h
            simp at h
          | false =>
            cases hdir : e.isDir with
            | true =>
              rw [serveHTTP_dir fs mask m p s e hm' hpu hd hg hmask hdir] at h
              cases hge : getEntries fs e.fsPath mask with
              | error u => simp [hge] at h
              | ok ms => simp [hge] at h
            | false =>
              rw [serveHTTP_file fs mask m p s e hm' hpu hd hg hmask hdir] at h
              exact ⟨s, e, rfl, hd, hg, hmask, hdir, by
                cases h
                rfl⟩

theorem serveHTTP_listing_inv (fs : Fs) (mask : List GitPattern) (m p : GoStr)
    (dir : Entry) (es : List Entry) (pr : Bool)
    (h : serveHTTP fs mask m p = Response.listing dir es pr) :
    ∃ s ms, pathUnescape p = some s ∧ filepathClean s ≠ s2b "." ∧
      getEntry fs (filepathClean s) = some dir ∧ globMasked mask (some dir) = false ∧
      dir.isDir = true ∧ getEntries fs dir.fsPath mask = Except.ok ms ∧
      es = sortEntries ms ∧ pr = decide (dir.linkPath ≠ s2b "/") := by
  by_cases hm' : (m ≠ s2b "GET" ∧ m ≠ s2b "HEAD")
  · rw [serveHTTP_405 fs mask m p hm'] at h
    simp at h
  · cases hpu : pathUnescape p with
    | none =>
      rw [serveHTTP_badRequest_unescape fs mask m p hm' hpu] at h
      simp at h
    | some s =>
      by_cases hd : filepathClean s = s2b "."
      · rw [serveHTTP_badRequest_dot fs mask m p s hm' hpu hd] at h
        simp at h
      · cases hg : getEntry fs (filepathClean s) with
        | none =>
          rw [serveHTTP_absent fs mask m p s hm' hpu hd hg] at h
          simp at h
        | some e =>
          cases hmask : globMasked mask (some e) with
          | true =>
            rw [serveHTTP_masked fs mask m p s e hm' hpu hd hg hmask] at h
            simp at h
          | false =>
            cases hdir : e.isDir with
            | false =>
              rw [serveHTTP_file fs mask m p s e hm' hpu hd hg hmask hdir] at h
              simp at h
            | true =>
              rw [serveHTTP_dir fs mask m p s e hm' hpu hd hg hmask hdir] at h
              cases hge : getEntries fs e.fsPath mask with
              | error u => simp [hge] at h
              | ok ms =>
                simp only [hge, Response.listing.injEq] at h
                obtain ⟨rfl, hes, hpr⟩ := h
                exact ⟨s, ms, rfl, hd, hg, hmask, hdir, hge, hes.symm, hpr.symm⟩

theorem serveHTTP_500_inv (fs : Fs) (mask : List GitPattern) (m p : GoStr)
    (h : serveHTTP fs mask m p = Response.internalError) :
    ∃ s e, pathUnescape p = some s ∧ filepathClean s ≠ s2b "." ∧
      getEntry fs (filepathClean s) = some e ∧ globMasked mask (some e) = false ∧
      e.isDir = true ∧ getEntries fs e.fsPath mask = Except.error () := by
  by_cases hm' : (m ≠ s2b "GET" ∧ m ≠ s2b "HEAD")
  · rw [serveHTTP_405 fs mask m p hm'] at h
    simp at h
  · cases hpu : pathUnescape p with
    | none =>
      rw [serveHTTP_badRequest_unescape fs mask m p hm' hpu] at h
      simp at h
    | some s =>
      by_cases hd : filepathClean s = s2b "."
      · rw [serveHTTP_badRequest_dot fs mask m p s hm' hpu hd] at h
        simp at h
      · cases hg : getEntry fs (filepathClean s) with
        | none =>
          rw [serveHTTP_absent fs mask m p s hm' hpu hd hg] at h
          simp at h
        | some e =>
          cases hmask : globMasked mask (some e) with
          | true =>
            rw [serveHTTP_masked fs mask m p s e hm' hpu hd hg hmask] at h
            simp at h
          | false =>
            cases hdir : e.isDir with
            | false =>
              rw [serveHTTP_file fs mask m p s e hm' hpu hd hg hmask hdir] at h
              simp at h
            | true =>
              rw [serveHTTP_dir fs mask m p s e hm' hpu hd hg hmask hdir] at h
              cases hge : getEntries fs e.fsPath mask with
              | error u => exact ⟨s, e, rfl, hd, hg, hmask, hdir, hge⟩
              | ok ms => simp [hge] at h

/-- C1: for every path whose resolved entry is masked, the handler's response
is the shared `http.NotFound` writer, and is identical to the response for any
path whose resolution fails: a client cannot distinguish a masked entry from
an absent one. -/
theorem C1_masked_equals_absent (fs fs' : Fs) (mask mask' : List GitPattern)
    (m m' p p' s s' : GoStr) (e : Entry)
    (hm : ¬(m ≠ s2b "GET" ∧ m ≠ s2b "HEAD")) (hu : pathUnescape p = some s)
    (hd : filepathClean s ≠ s2b ".") (hg : getEntry fs (filepathClean s) = some e)
    (hmask : globMasked mask (some e) = true)
    (hm' : ¬(m' ≠ s2b "GET" ∧ m' ≠ s2b "HEAD")) (hu' : pathUnescape p' = some s')
    (hd' : filepathClean s' ≠ s2b ".") (hg' : getEntry fs' (filepathClean s') = none) :
    serveHTTP fs mask m p = Response.notFound ∧
      serveHTTP fs mask m p = serveHTTP fs' mask' m' p' := by
  have h1 := serveHTTP_masked fs mask m p s e hm hu hd hg hmask
  have h2 := serveHTTP_absent fs' mask' m' p' s' hm' hu' hd' hg'
  exact ⟨h1, by rw [h1, h2]⟩

/-- C1 witness: in the scenario tree, `README.md` exists but is masked and
`nope.txt` does not exist; both requests get the same 404 response. -/
theorem C1_witness :
    serveHTTP c3fs c3mask (s2b "GET") (s2b "README.md") = Response.notFound ∧
      serveHTTP c3fs c3mask (s2b "GET") (s2b "README.md") =
        serveHTTP c3fs c3mask (s2b "GET") (s2b "nope.txt") :=
  C1_masked_equals_absent c3fs c3fs c3mask c3mask (s2b "GET") (s2b "GET")
    (s2b "README.md") (s2b "nope.txt") (s2b "README.md") (s2b "nope.txt")
    { name := s2b "README.md", size := 3, mode := 420, modTime := s2b "t", isDir := false,
      fsPath := s2b "README.md", linkPath := s2b "/files/README.md" }
    (by decide) (by decide) (by decide) (by decide) (by decide)
    (by decide) (by decide) (by decide) (by decide)

/-- C2: for every GET/HEAD request whose percent-decoded, cleaned path
escapes the serving root (a leading `..` element or an absolute path), the
handler answers 400 or 404; a decoding failure answers 400; and a file is
only ever streamed from a `fs.ValidPath`-valid path that does not escape the
root. -/
theorem C2_traversal_rejected (fs : Fs) (mask : List GitPattern) (m p : GoStr)
    (hm : ¬(m ≠ s2b "GET" ∧ m ≠ s2b "HEAD")) :
    (∀ s, pathUnescape p = some s → escapesRoot (filepathClean s) = true →
       serveHTTP fs mask m p = Response.badRequest ∨
         serveHTTP fs mask m p = Response.notFound) ∧
    (pathUnescape p = none → serveHTTP fs mask m p = Response.badRequest) ∧
    (∀ q, serveHTTP fs mask m p = Response.fileStream q →
       validPath q = true ∧ escapesRoot q = false) := by
  refine ⟨?_, ?_, ?_⟩
  · intro s hu he
    right
    have hd : filepathClean s ≠ s2b "." := escapesRoot_ne_dot _ he
    have hv : validPath (filepathClean s) = false := escapesRoot_not_valid _ he
    exact serveHTTP_absent fs mask m p s hm hu hd (getEntry_none_of_invalid fs _ hv)
  · intro hu
    exact serveHTTP_badRequest_unescape fs mask m p hm hu
  · intro q hq
    obtain ⟨s, e, -, -, hg, -, -, rfl⟩ := serveHTTP_fileStream_inv fs mask m p q hq
    obtain ⟨hv, hfs, -⟩ := getEntry_eq_some fs _ e hg
    rw [hfs]
    exact ⟨hv, valid_not_escapes _ hv⟩

/-- C2 witness: the request path `../../etc/passwd` (the decoded remainder of
`/files/..%2f..%2fetc%2fpasswd`) cleans to a root-escaping path and is
answered 404. -/
theorem C2_witness :
    serveHTTP c3fs c3mask (s2b "GET") (s2b "../../etc/passwd") = Response.badRequest ∨
      serveHTTP c3fs c3mask (s2b "GET") (s2b "../../etc/passwd") = Response.notFound :=
  (C2_traversal_rejected c3fs c3mask (s2b "GET") (s2b "../../etc/passwd") (by decide)).1
    (s2b "../../etc/passwd") (by decide) (by decide)

/-- C3 counterexample: under the rules `"**/*.go\n**/secrets/"` the path
`secrets/key.go` (a non-directory) is NOT masked — `**/secrets/` carries no
`!`, so under the inverted gitignore semantics it is an inclusion rule and,
being the last match, makes the file visible. The claim asserts it is masked. -/
theorem C3_counterexample :
    globMasked c3mask (some (mkEntry "secrets/key.go" false)) = false := by decide

/-- C3 amended: with rules `"**/*.go\n**/secrets/"` over the scenario tree,
`main.go` and `secrets/key.go` are both visible and served as file streams,
`README.md` is masked (404), a listing of the root contains `main.go` and
`secrets` (README.md dropped), and the bare `/files/` root-listing request
itself (empty remainder, which cleans to `"."`) is answered 400. -/
theorem C3_amended_scenario :
    serveHTTP c3fs c3mask (s2b "GET") (s2b "main.go") = Response.fileStream (s2b "main.go") ∧
    serveHTTP c3fs c3mask (s2b "GET") (s2b "secrets/key.go") =
      Response.fileStream (s2b "secrets/key.go") ∧
    serveHTTP c3fs c3mask (s2b "GET") (s2b "README.md") = Response.notFound ∧
    getEntries c3fs (s2b ".") c3mask = Except.ok [mainGoEntry, secretsDirEntry] ∧
    serveHTTP c3fs c3mask (s2b "GET") [] = Response.badRequest := by
  refine ⟨by decide, by decide, by decide, ?_, by decide⟩
  rfl

/-- C5: the visibility decision fails closed — `GlobMask.Masked(nil)` is true
for every rule set, before any pattern is consulted. -/
theorem C5_fail_closed (pats : List GitPattern) : globMasked pats none = true := rfl

theorem head?_mem {α : Type} (l : List α) (a : α) (h : l.head? = some a) : a ∈ l := by
  cases l with
  | nil => simp at h
  | cons x xs =>
    simp only [List.head?_cons, Option.some.injEq] at h
    subst h
    simp

/-- C4: a path is visible (not masked) exactly when some rule matches it and
the last matching rule in declaration order has positive polarity (no `!`
prefix, i.e. `inclusion = false`); in particular, under the rules
`["*.go", "!secret.go", "secret.go"]` the path `secret.go` is visible. -/
theorem C4_last_match_wins :
    (∀ (pats : List GitPattern) (e : Entry),
        globMasked pats (some e) = false ↔
          ∃ gp, (pats.filter (fun q =>
              decide (patternMatch q (splitSlash e.fsPath) e.isDir ≠
                MatchResult.noMatch))).getLast? = some gp ∧ gp.inclusion = false) ∧
      globMasked c4mask (some secretGoEntry) = false := by
  constructor
  · intro pats e
    show (!matcherMatch pats (splitSlash e.fsPath) e.isDir) = false ↔ _
    rw [Bool.not_eq_false']
    unfold matcherMatch
    rw [matchScan_iff]
    constructor
    · rintro ⟨gp, hhead, hexcl⟩
      rw [List.filter_reverse, List.head?_reverse] at hhead
      refine ⟨gp, hhead, ?_⟩
      have hmem : gp ∈ pats.filter (fun q =>
          decide (patternMatch q (splitSlash e.fsPath) e.isDir ≠ MatchResult.noMatch)) := by
        have hmemr := head?_mem _ _ ((List.head?_reverse _).trans hhead)
        simpa using hmemr
      have hP := List.of_mem_filter hmem
      simp only [decide_eq_true_eq] at hP
      exact (patternMatch_excl_iff gp _ _ hP).mp hexcl
    · rintro ⟨gp, hlast, hinc⟩
      rw [List.filter_reverse, List.head?_reverse]
      refine ⟨gp, hlast, ?_⟩
      have hmem : gp ∈ pats.filter (fun q =>
          decide (patternMatch q (splitSlash e.fsPath) e.isDir ≠ MatchResult.noMatch)) := by
        have hmemr := head?_mem _ _ ((List.head?_reverse _).trans hlast)
        simpa using hmemr
      have hP := List.of_mem_filter hmem
      simp only [decide_eq_true_eq] at hP
      exact (patternMatch_excl_iff gp _ _ hP).mpr hinc
  · decide

/-- C6 counterexample: resolving the root path `"."` succeeds (its entry's
link is `"/files"`, with no separator after the prefix), and neither stripping
`"/files/"` (no such prefix) nor stripping `"/files"` and unescaping the empty
remainder reproduces `"."` — the round-trip fails at the root path. -/
theorem C6_counterexample :
    getEntry c3fs (s2b ".") = some rootDirEntry ∧
    stripPrefB (s2b "/files/") rootDirEntry.linkPath = none ∧
    stripPrefB (s2b "/files") rootDirEntry.linkPath = some [] ∧
    ¬pathUnescape [] = some (s2b ".") := by
  refine ⟨by decide, by decide, by decide, by decide⟩

/-- C6 amended: for every entry the resolver produces from a path other than
the root sentinel `"."`, the link is `"/files/" ++ PathEscape(path)`;
stripping the `"/files/"` prefix and percent-unescaping the remainder
reproduces the path exactly. -/
theorem C6_roundtrip_amended (fs : Fs) (p : GoStr) (e : Entry)
    (h : getEntry fs p = some e) (hne : p ≠ s2b ".") :
    stripPrefB (s2b "/files/") e.linkPath = some (pathEscape p) ∧
      pathUnescape (pathEscape p) = some p := by
  have hne' : p ≠ [46] := hne
  obtain ⟨hv, -, -⟩ := getEntry_eq_some fs p e h
  have hlink := getEntry_linkPath fs p e h hne'
  constructor
  · rw [hlink]
    have hsplit : (47 : Nat) :: 102 :: 105 :: 108 :: 101 :: 115 :: 47 :: pathEscape p =
        s2b "/files/" ++ pathEscape p := rfl
    rw [hsplit, stripPrefB_append]
  · exact unescapeB_pathEscape p (validPath_lt p hv)

/-- C6 witness: the entry for `main.go` round-trips. -/
theorem C6_witness :
    stripPrefB (s2b "/files/") mainGoEntry.linkPath = some (pathEscape (s2b "main.go")) ∧
      pathUnescape (pathEscape (s2b "main.go")) = some (s2b "main.go") :=
  C6_roundtrip_amended c3fs (s2b "main.go") mainGoEntry (by decide) (by decide)

/-- C7: every directory listing the server renders carries the synthetic
parent (`..`) row, and the listed directory is never the serving root (the
root path `"."` is rejected as a bad request before rendering); hence the
parent row is present exactly when the listed directory is not the root. -/
theorem C7_parent_row (fs : Fs) (mask : List GitPattern) (m p : GoStr)
    (dir : Entry) (es : List Entry) (pr : Bool)
    (h : serveHTTP fs mask m p = Response.listing dir es pr) :
    pr = true ∧ dir.fsPath ≠ s2b "." ∧ (pr = true ↔ dir.fsPath ≠ s2b ".") := by
  obtain ⟨s, ms, hu, hd, hg, hmask, hdir, hge, hes, hpr⟩ :=
    serveHTTP_listing_inv fs mask m p dir es pr h
  obtain ⟨hv, hfs, -⟩ := getEntry_eq_some fs _ dir hg
  have hlink := getEntry_linkPath fs _ dir hg hd
  have hne : dir.linkPath ≠ s2b "/" := by
    rw [hlink]
    intro hcontra
    rw [show s2b "/" = [47] from rfl] at hcontra
    simp at hcontra
  have hprt : pr = true := by
    rw [hpr]
    simp [hne]
  refine ⟨hprt, ?_, ?_⟩
  · rw [hfs]
    exact hd
  · constructor
    · intro _
      rw [hfs]
      exact hd
    · intro _
      exact hprt

/-- C7 witness: listing the visible directory `secrets` renders with the
parent row, and `secrets` is not the root. -/
theorem C7_witness :
    (true : Bool) = true ∧ secretsDirEntry.fsPath ≠ s2b "." ∧
      ((true : Bool) = true ↔ secretsDirEntry.fsPath ≠ s2b ".") :=
  C7_parent_row c3fs c3mask (s2b "GET") (s2b "secrets") secretsDirEntry [keyGoEntry] true
    (by decide)

/-- C8: when the server lists an unmasked directory, every child whose entry
resolves but is masked is silently skipped (the listing is exactly the
resolved children with masked ones dropped, the run succeeds); `GetEntries`
fails exactly when some child fails to resolve; and a 500 response arises
only from a failure of this listing-building stage. -/
theorem C8_listing_skip (fs : Fs) (mask : List GitPattern) :
    (∀ (path : GoStr) (children : List GoStr), dirReadDir fs path = some children →
      ((∀ c ∈ children, getEntry fs (pathJoin2 path c) ≠ none) →
        getEntries fs path mask = Except.ok (children.filterMap (fun c =>
          match getEntry fs (pathJoin2 path c) with
          | none => none
          | some e => if globMasked mask (some e) then none else some e))) ∧
      ((∃ c ∈ children, getEntry fs (pathJoin2 path c) = none) →
        getEntries fs path mask = Except.error ())) ∧
    (∀ m p, serveHTTP fs mask m p = Response.internalError →
      ∃ s e, pathUnescape p = some s ∧ getEntry fs (filepathClean s) = some e ∧
        globMasked mask (some e) = false ∧ e.isDir = true ∧
        getEntries fs e.fsPath mask = Except.error ()) := by
  constructor
  · intro path children hrd
    constructor
    · intro hall
      unfold getEntries
      rw [hrd]
      exact getEntriesGo_ok fs mask path children hall
    · intro hex
      unfold getEntries
      rw [hrd]
      exact getEntriesGo_error fs mask path children hex
  · intro m p h
    obtain ⟨s, e, hu, -, hg, hmask, hdir, hge⟩ := serveHTTP_500_inv fs mask m p h
    exact ⟨s, e, hu, hg, hmask, hdir, hge⟩

/-- C8 witness: in the scenario tree the root's children all resolve; the
listing of the root is the filtered (mask-skipping) child list, with
`README.md` silently dropped and no error. -/
theorem C8_witness :
    getEntries c3fs (s2b ".") c3mask =
      Except.ok (([s2b "README.md", s2b "main.go", s2b "secrets"]).filterMap (fun c =>
        match getEntry c3fs (pathJoin2 (s2b ".") c) with
        | none => none
        | some e => if globMasked c3mask (some e) then none else some e)) :=
  ((C8_listing_skip c3fs c3mask).1 (s2b ".")
    [s2b "README.md", s2b "main.go", s2b "secrets"] (by decide)).1 (by decide)

/-- C9: the listing order is a pure sort by ascending byte order of names —
the sort is order-independent for distinct names (any enumeration order of
the same entries sorts to the same list), every rendered listing is sorted,
the sort permutes its input, and `[b.txt, a.txt, c.txt]` sorts to
`[a.txt, b.txt, c.txt]`. -/
theorem C9_sorted_listing :
    (∀ (l1 l2 : List Entry), l1.Perm l2 → (l1.map (fun e => e.name)).Nodup →
        sortEntries l1 = sortEntries l2) ∧
    (∀ l : List Entry, List.Sorted entryLe (sortEntries l) ∧ (sortEntries l).Perm l) ∧
    (∀ (fs : Fs) (mask : List GitPattern) (m p : GoStr) (dir : Entry)
        (es : List Entry) (pr : Bool),
        serveHTTP fs mask m p = Response.listing dir es pr → List.Sorted entryLe es) ∧
    sortEntries [entB, entA, entC] = [entA, entB, entC] := by
  refine ⟨sortEntries_deterministic, ?_, ?_, by decide⟩
  · intro l
    exact ⟨List.sorted_insertionSort entryLe l, List.perm_insertionSort entryLe l⟩
  · intro fs mask m p dir es pr h
    obtain ⟨s, ms, -, -, -, -, -, -, hes, -⟩ := serveHTTP_listing_inv fs mask m p dir es pr h
    rw [hes]
    exact List.sorted_insertionSort entryLe ms

/-- C9 witness: the two enumeration orders `[b, a]` and `[a, b]` (distinct
names) sort identically. -/
theorem C9_witness : sortEntries [entB, entA] = sortEntries [entA, entB] :=
  C9_sorted_listing.1 [entB, entA] [entA, entB] (by decide) (by decide)

/-- C10: the root route answers 200 with an empty body for the exact path
`/` under every HTTP method (no method gate), while the 405 method check
applies only to the `/files/` sub-route. -/
theorem C10_root_route (fs : Fs) (mask : List GitPattern) (m p : GoStr) :
    muxServe fs mask m (s2b "/") = Response.ok200Empty ∧
      (m ≠ s2b "GET" → m ≠ s2b "HEAD" → ∀ rest, p = s2b "/files/" ++ rest →
        muxServe fs mask m p = Response.methodNotAllowed) := by
  constructor
  · rfl
  · intro hg hh rest hp
    subst hp
    unfold muxServe
    rw [stripPrefB_append]
    exact serveHTTP_405 fs mask m rest ⟨hg, hh⟩

/-- C10 witness: a POST to `/` gets 200, a DELETE under `/files/` gets 405. -/
theorem C10_witness :
    muxServe c3fs c3mask (s2b "POST") (s2b "/") = Response.ok200Empty ∧
      muxServe c3fs c3mask (s2b "DELETE") (s2b "/files/x") = Response.methodNotAllowed := by
  refine ⟨(C10_root_route c3fs c3mask (s2b "POST") (s2b "/")).1, ?_⟩
  exact (C10_root_route c3fs c3mask (s2b "DELETE") (s2b "/files/x")).2 (by decide) (by decide)
    (s2b "x") (by decide)
